import Mathlib

/-!
Verification development for the TeliBelly message dashboard
(`src/TeliBelly`).  The definitions below are shallow embeddings of the
client-side code (Vue components and the Pinia store) and — where the
Python backend is not part of the sources — of the behaviour the design
document ascribes to it.  Theorems settle the frozen claims about the
full-dataset sync loop, the connectivity state machine, the status
poller, the tag editor, the flag toggles and the scrape-job coordinator.
-/

namespace TeliBelly

/-! ## Full-Dataset Sync Loop (`src/stores/messages.js`, `fetchAllMessages`)

The store `fetchAllMessages` action loops over
`fetch(/api/messages?limit=100&offset=o)` with `limit` fixed at 100 and
`offset` starting at 0 and increasing by 100, concatenating each page
onto `this.allMessages` (which it first resets to `[]`), and breaks when
a page has fewer than 100 records.  A thrown fetch is caught, leaving
whatever has been accumulated so far in `this.allMessages`.

We model the archive behind the endpoint as a list `store`; the page at
offset `o` is the slice of up to 100 records starting at `o`.  The fault
model `fails o = true` means the request at offset `o` throws. -/

/-- The page of up to 100 records the list endpoint returns at a given offset. -/
def pageAt (store : List α) (offset : Nat) : List α :=
  (store.drop offset).take 100

/-- The `while (true)` loop of `fetchAllMessages`: returns the pages
successfully fetched, in order, together with `true` when the crawl
ended in a caught exception (at the first offset where `fails` holds)
rather than in the fewer-than-100-records break. -/
def crawlPages (store : List α) (fails : Nat → Bool) (offset : Nat) :
    List (List α) × Bool :=
  if fails offset then ([], true)
  else if h : (pageAt store offset).length < 100 then ([pageAt store offset], false)
  else
    (pageAt store offset :: (crawlPages store fails (offset + 100)).1,
      (crawlPages store fails (offset + 100)).2)
termination_by store.length - offset
decreasing_by
  all_goals
    simp only [pageAt, List.length_take, List.length_drop, not_lt] at h
    omega

/-- The state of the Pinia messages store that `fetchAllMessages` mutates. -/
structure MirrorState (α : Type) where
  allMessages : List α
  loading : Bool
  deriving DecidableEq, Repr

/-- Running `fetchAllMessages` from a previous store state: the action
sets `loading = true`, resets `allMessages` to `[]`, appends each
fetched page, and in `finally` clears `loading`.  The previous mirror
`prev` is discarded unconditionally; on a caught failure the partially
accumulated pages remain. -/
def runFetchAllMessages (store : List α) (fails : Nat → Bool)
    (prev : MirrorState α) : MirrorState α :=
  { allMessages := (crawlPages store fails 0).1.flatten, loading := false }

/-- The mirror built by a fault-free crawl. -/
def fetchAllMessages (store : List α) : List α :=
  (crawlPages store (fun _ => false) 0).1.flatten

theorem crawlPages_flatten_of_no_fail (store : List α) :
    ∀ offset, ((crawlPages store (fun _ => false) offset).1).flatten =
      store.drop offset := by
  have key : ∀ fuel offset, store.length - offset ≤ fuel →
      ((crawlPages store (fun _ => false) offset).1).flatten = store.drop offset := by
    intro fuel
    induction fuel with
    | zero =>
      intro offset hle
      have hlen : (pageAt store offset).length < 100 := by
        simp only [pageAt, List.length_take, List.length_drop]
        omega
      unfold crawlPages
      simp only [Bool.false_eq_true, if_false]
      rw [dif_pos hlen]
      simp only [List.flatten_cons, List.flatten_nil, List.append_nil, pageAt]
      exact List.take_of_length_le (by simp; omega)
    | succ n ih =>
      intro offset hle
      by_cases hlen : (pageAt store offset).length < 100
      · have hshort : store.length - offset < 100 := by
          simp only [pageAt, List.length_take, List.length_drop] at hlen
          omega
        unfold crawlPages
        simp only [Bool.false_eq_true, if_false]
        rw [dif_pos hlen]
        simp only [List.flatten_cons, List.flatten_nil, List.append_nil, pageAt]
        exact List.take_of_length_le (by simp; omega)
      · have hfull : 100 ≤ store.length - offset := by
          simp only [pageAt, List.length_take, List.length_drop, not_lt] at hlen
          omega
        unfold crawlPages
        simp only [Bool.false_eq_true, if_false]
        rw [dif_neg hlen]
        simp only [List.flatten_cons]
        rw [ih (offset + 100) (by omega)]
        simp only [pageAt]
        rw [← List.drop_drop]
        exact List.take_append_drop 100 (store.drop offset)
  exact fun offset => key (store.length - offset) offset le_rfl

theorem fetchAllMessages_eq (store : List α) : fetchAllMessages store = store := by
  simpa using crawlPages_flatten_of_no_fail store 0

theorem crawlPages_eq_fail {store : List α} {fails : Nat → Bool} {offset : Nat}
    (hf : fails offset = true) : crawlPages store fails offset = ([], true) := by
  unfold crawlPages
  rw [if_pos hf]

theorem crawlPages_eq_last {store : List α} {fails : Nat → Bool} {offset : Nat}
    (hf : fails offset = false) (hshort : store.length - offset < 100) :
    crawlPages store fails offset = ([pageAt store offset], false) := by
  unfold crawlPages
  rw [if_neg (by simp [hf]), dif_pos]
  simp only [pageAt, List.length_take, List.length_drop]
  omega

theorem crawlPages_eq_cons {store : List α} {fails : Nat → Bool} {offset : Nat}
    (hf : fails offset = false) (hfull : 100 ≤ store.length - offset) :
    crawlPages store fails offset =
      (pageAt store offset :: (crawlPages store fails (offset + 100)).1,
        (crawlPages store fails (offset + 100)).2) := by
  have hlen : ¬(pageAt store offset).length < 100 := by
    simp only [pageAt, List.length_take, List.length_drop, not_lt]
    exact le_min le_rfl hfull
  conv_lhs => rw [crawlPages.eq_def]
  rw [if_neg (by simp [hf]), dif_neg hlen]

theorem crawlPages_of_fail_at (store : List α) (fails : Nat → Bool) (k : Nat) :
    ∀ offset, (∀ j, j < k → fails (offset + 100 * j) = false) →
      fails (offset + 100 * k) = true → offset + 100 * k ≤ store.length →
      (crawlPages store fails offset).1.flatten = (store.drop offset).take (100 * k) ∧
        (crawlPages store fails offset).2 = true := by
  induction k with
  | zero =>
    intro offset _ h2 _
    rw [crawlPages_eq_fail (by simpa using h2)]
    simp
  | succ k ih =>
    intro offset h1 h2 h3
    have hf0 : fails offset = false := by simpa using h1 0 (Nat.succ_pos k)
    have hfull : 100 ≤ store.length - offset := by omega
    rw [crawlPages_eq_cons hf0 hfull]
    have ih' := ih (offset + 100)
      (fun j hj => by
        have e : offset + 100 + 100 * j = offset + 100 * (j + 1) := by ring
        rw [e]
        exact h1 (j + 1) (by omega))
      (by
        have e : offset + 100 + 100 * k = offset + 100 * (k + 1) := by ring
        rw [e]
        exact h2)
      (by omega)
    refine ⟨?_, ih'.2⟩
    simp only [List.flatten_cons, ih'.1, pageAt]
    rw [← List.drop_drop]
    rw [← List.take_add]
    congr 1
    ring

/-- C2: `fetchAllMessages` requests pages of size 100 at offsets 0, 100, 200, …,
terminating exactly at the first page with fewer than 100 records; against a
250-message store it issues exactly 3 requests returning 100, 100 and 50
records, and the resulting mirror is exactly the store — no duplicate, no
gap, no error. -/
theorem fetchAllMessages_250 (store : List Nat) (h : store.length = 250) :
    ((crawlPages store (fun _ => false) 0).1).map List.length = [100, 100, 50] ∧
      (crawlPages store (fun _ => false) 0).1.length = 3 ∧
      fetchAllMessages store = store ∧
      (crawlPages store (fun _ => false) 0).2 = false := by
  have s0 := @crawlPages_eq_cons Nat store (fun _ => false) 0 rfl (by omega)
  have s1 := @crawlPages_eq_cons Nat store (fun _ => false) (0 + 100) rfl (by omega)
  have s2 := @crawlPages_eq_last Nat store (fun _ => false) (0 + 100 + 100) rfl
    (by omega)
  rw [s1, s2] at s0
  refine ⟨?_, ?_, fetchAllMessages_eq store, ?_⟩ <;>
    simp [s0, pageAt, List.length_take, List.length_drop, h]

/-- C3 counterexample: a crawl whose second page fetch fails does not leave
the previously built mirror unchanged — the mirror is cleared at the start
of the crawl and holds the first fetched page when the failure hits. -/
theorem runFetchAllMessages_aborted_cex :
    (runFetchAllMessages (List.range 150) (fun o => o == 100)
        ⟨[7], false⟩).allMessages ≠
      (MirrorState.mk [7] false).allMessages := by
  have h := crawlPages_of_fail_at (List.range 150) (fun o => o == 100) 1 0
    (fun j hj => by interval_cases j <;> rfl) (by rfl) (by simp)
  unfold runFetchAllMessages
  simp only [h.1, List.drop_zero, List.take_range]
  intro hcontra
  have := congrArg List.length hcontra
  simp at this

/-- C3 (amended): if the page fetch at offset `100*k` fails after `k` full
pages were fetched, the crawl aborts with the mirror holding exactly the
first `100*k` records of the store (the accumulator is committed page by
page, not on full success), and `loading` is cleared. -/
theorem runFetchAllMessages_aborted (store : List α) (fails : Nat → Bool)
    (prev : MirrorState α) (k : Nat)
    (h1 : ∀ j, j < k → fails (100 * j) = false)
    (h2 : fails (100 * k) = true) (h3 : 100 * k ≤ store.length) :
    (runFetchAllMessages store fails prev).allMessages = store.take (100 * k) ∧
      (runFetchAllMessages store fails prev).loading = false := by
  have h := crawlPages_of_fail_at store fails k 0
    (fun j hj => by simpa using h1 j hj) (by simpa using h2) (by omega)
  unfold runFetchAllMessages
  simpa using h.1

/-- Witness for `runFetchAllMessages_aborted` at a concrete store and fault. -/
theorem runFetchAllMessages_aborted_witness :
    (runFetchAllMessages (List.range 250) (fun o => o == 200)
        ⟨[7], false⟩).allMessages = (List.range 250).take (100 * 2) := by
  exact (runFetchAllMessages_aborted (List.range 250) (fun o => o == 200)
    ⟨[7], false⟩ 2 (fun j hj => by interval_cases j <;> rfl) (by rfl)
    (by simp)).1

/-- Witness instantiating `fetchAllMessages_250` at the store `0,…,249`. -/
theorem fetchAllMessages_250_witness :
    ((crawlPages (List.range 250) (fun _ => false) 0).1).map List.length =
        [100, 100, 50] ∧
      fetchAllMessages (List.range 250) = List.range 250 := by
  have h := fetchAllMessages_250 (List.range 250) (by simp)
  exact ⟨h.1, h.2.2.1⟩

/-! ## Connectivity State Machine (`src/App.vue`, `checkBackendConnection`)

`App.vue` keeps two countdown intervals: `countdownInterval` (ticking
`reconnectTime` down once per second while disconnected) and
`healthyCountdownInterval` (ticking `nextCheckTime` down once per second
while connected).  `checkBackendConnection` is an async function: it
issues `fetch('/api/health')` and, when the response resolves, runs
either the healthy branch (clear both intervals, `reconnectTime = 0`,
`nextCheckTime = next_check_in_seconds`, arm the healthy interval) or
the catch branch (clear the healthy interval, `nextCheckTime = 0`,
`reconnectTime = 1`, clear and re-arm the countdown interval).

The healthy interval tick clears itself (`clearInterval`) before
re-probing when `nextCheckTime` reaches 0; the countdown interval tick
calls `checkBackendConnection()` when `reconnectTime` reaches 0 *without*
clearing itself.  We model this as a small-step machine driven by a
nondeterministic schedule of tick and fetch-resolution events;
`inFlight` counts probes whose fetch has been issued but whose handler
has not yet run. -/

structure ConnState where
  showConnectionMessage : Bool
  reconnectTime : Int
  nextCheckTime : Int
  countdownActive : Bool
  healthyActive : Bool
  inFlight : Nat
  deriving DecidableEq, Repr

/-- Events: a 1-second tick of either interval, or the resolution of an
in-flight health probe (healthy payload with `next_check_in_seconds`, or
failure / non-healthy payload). -/
inductive ConnEvent where
  | countdownTick : ConnEvent
  | healthyTick : ConnEvent
  | resolveHealthy : Int → ConnEvent
  | resolveFailure : ConnEvent
  deriving DecidableEq, Repr

def connStep (s : ConnState) : ConnEvent → ConnState
  | .countdownTick =>
    if s.countdownActive then
      if s.reconnectTime - 1 ≤ 0 then
        { s with reconnectTime := s.reconnectTime - 1, inFlight := s.inFlight + 1 }
      else { s with reconnectTime := s.reconnectTime - 1 }
    else s
  | .healthyTick =>
    if s.healthyActive then
      if s.nextCheckTime - 1 ≤ 0 then
        { s with
          nextCheckTime := s.nextCheckTime - 1
          healthyActive := false
          inFlight := s.inFlight + 1 }
      else { s with nextCheckTime := s.nextCheckTime - 1 }
    else s
  | .resolveHealthy n =>
    if 0 < s.inFlight then
      { showConnectionMessage := false, reconnectTime := 0, nextCheckTime := n,
        countdownActive := false, healthyActive := true, inFlight := s.inFlight - 1 }
    else s
  | .resolveFailure =>
    if 0 < s.inFlight then
      { showConnectionMessage := true, reconnectTime := 1, nextCheckTime := 0,
        countdownActive := true, healthyActive := false, inFlight := s.inFlight - 1 }
    else s

/-- On mount, `checkBackendConnection` issues the first probe immediately, with no interval armed. -/
def connInit : ConnState :=
  { showConnectionMessage := true, reconnectTime := 0, nextCheckTime := 0,
    countdownActive := false, healthyActive := false, inFlight := 1 }

def connRun (es : List ConnEvent) : ConnState :=
  es.foldl connStep connInit

theorem connStep_exclusive (s : ConnState) (e : ConnEvent)
    (h : ¬(s.countdownActive = true ∧ s.healthyActive = true)) :
    ¬((connStep s e).countdownActive = true ∧ (connStep s e).healthyActive = true) := by
  cases e <;> simp only [connStep] <;> split_ifs <;> simp_all

theorem connRun_exclusive_aux (es : List ConnEvent) :
    ∀ s : ConnState, ¬(s.countdownActive = true ∧ s.healthyActive = true) →
      ¬((es.foldl connStep s).countdownActive = true ∧
        (es.foldl connStep s).healthyActive = true) := by
  induction es with
  | nil => exact fun s h => h
  | cons e es ih =>
    intro s h
    exact ih (connStep s e) (connStep_exclusive s e h)

/-- C4 (amended): at every instant at most one of the two countdown
intervals is armed (every probe handler clears both before arming the one
for its new state): the healthy handler cancels the reconnect countdown
and the failure handler cancels the healthy countdown.  (The claim's
further conclusion — that no two health probes ever overlap — is false;
see the counterexample.) -/
theorem conn_timer_exclusive :
    (∀ es : List ConnEvent,
        ¬((connRun es).countdownActive = true ∧ (connRun es).healthyActive = true)) ∧
      (∀ (s : ConnState) (n : Int), 0 < s.inFlight →
        (connStep s (.resolveHealthy n)).countdownActive = false ∧
          (connStep s (.resolveHealthy n)).healthyActive = true) ∧
      (∀ s : ConnState, 0 < s.inFlight →
        (connStep s .resolveFailure).healthyActive = false ∧
          (connStep s .resolveFailure).countdownActive = true) := by
  refine ⟨fun es => connRun_exclusive_aux es connInit (by simp [connInit]), ?_, ?_⟩
  · intro s n h
    simp [connStep, h]
  · intro s h
    simp [connStep, h]

/-- Witness for `conn_timer_exclusive` at a concrete state with a probe in flight. -/
theorem conn_timer_exclusive_witness :
    0 < connInit.inFlight ∧
      (connStep connInit (.resolveHealthy 30)).countdownActive = false ∧
      (connStep connInit .resolveFailure).healthyActive = false := by
  refine ⟨by decide, ?_, ?_⟩
  · exact (conn_timer_exclusive.2.1 connInit 30 (by decide)).1
  · exact (conn_timer_exclusive.2.2 connInit (by decide)).1

/-- C4 counterexample: the reconnect countdown is not cancelled when its
tick fires a probe, so if the probe is still in flight one second later
the countdown fires a second, overlapping probe: after a failed initial
probe and two countdown ticks, two probes are in flight at once and the
countdown interval is still armed. -/
theorem conn_overlap_cex :
    (connRun [.resolveFailure, .countdownTick, .countdownTick]).inFlight = 2 ∧
      (connRun [.resolveFailure, .countdownTick, .countdownTick]).countdownActive
        = true := by
  constructor <;> rfl

/-- The machine state right after the healthy handler ran with payload `n`,
no other probe in flight. -/
def connectedState (n : Int) : ConnState :=
  { showConnectionMessage := false
    reconnectTime := 0
    nextCheckTime := n
    countdownActive := false
    healthyActive := true
    inFlight := 0 }

/-- The machine state right after the failure handler ran, no other probe
in flight. -/
def disconnectedState : ConnState :=
  { showConnectionMessage := true
    reconnectTime := 1
    nextCheckTime := 0
    countdownActive := true
    healthyActive := false
    inFlight := 0 }

/-- The state after the healthy countdown reached zero and fired its single
re-probe: the healthy interval has cleared itself, one probe is in flight. -/
def firedProbeState : ConnState :=
  { showConnectionMessage := false
    reconnectTime := 0
    nextCheckTime := 0
    countdownActive := false
    healthyActive := false
    inFlight := 1 }

/-- Apply `k` one-second ticks of the healthy countdown interval. -/
def healthyTicks : Nat → ConnState → ConnState
  | 0, s => s
  | k + 1, s => healthyTicks k (connStep s .healthyTick)

theorem healthyTicks_add (a : Nat) :
    ∀ (b : Nat) (s : ConnState),
      healthyTicks (a + b) s = healthyTicks b (healthyTicks a s) := by
  induction a with
  | zero => intro b s; rw [Nat.zero_add]; rfl
  | succ a ih =>
    intro b s
    have e : a + 1 + b = (a + b) + 1 := by omega
    rw [e]
    show healthyTicks (a + b) (connStep s .healthyTick) = _
    rw [ih b (connStep s .healthyTick)]
    rfl

theorem connStep_connectedState (n : Int) (h : 1 < n) :
    connStep (connectedState n) ConnEvent.healthyTick = connectedState (n - 1) := by
  simp only [connStep, connectedState]
  rw [if_pos trivial, if_neg (by omega)]

theorem healthyTicks_lt (k : Nat) :
    ∀ n : Int, (k : Int) < n →
      healthyTicks k (connectedState n) = connectedState (n - k) := by
  induction k with
  | zero => intro n _; simp [healthyTicks]
  | succ k ih =>
    intro n h
    show healthyTicks k (connStep (connectedState n) .healthyTick) = _
    rw [connStep_connectedState n (by push_cast at h; omega)]
    rw [ih (n - 1) (by push_cast at h ⊢; omega)]
    congr 1
    push_cast
    ring

theorem healthyTicks_fired (m : Nat) :
    healthyTicks m firedProbeState = firedProbeState := by
  induction m with
  | zero => rfl
  | succ m ih =>
    show healthyTicks m (connStep firedProbeState .healthyTick) = _
    have : connStep firedProbeState ConnEvent.healthyTick = firedProbeState := rfl
    rw [this, ih]

/-- C7: after a healthy payload carrying `next_check_in_seconds = n`, the
healthy countdown fires exactly one re-probe when it reaches zero — after
`k < n` ticks no probe is in flight and the countdown is still armed;
after `n + m` ticks exactly one probe has been fired and the interval has
cleared itself, so no further re-probe follows from this timer.  After a
failed probe, the reconnect countdown (starting at 1) fires a re-probe
at exactly the first 1-second tick, and a failure of that probe restores
exactly the disconnected state, so the flat 1-second cadence repeats on
every failure until a probe succeeds. -/
theorem conn_reprobe_schedule :
    (∀ (n : Int) (k : Nat), (k : Int) < n →
        (healthyTicks k (connectedState n)).inFlight = 0 ∧
          (healthyTicks k (connectedState n)).healthyActive = true) ∧
      (∀ n m : Nat, 0 < n →
        healthyTicks (n + m) (connectedState (n : Int)) = firedProbeState) ∧
      connStep disconnectedState .countdownTick =
        { disconnectedState with
          reconnectTime := 0
          inFlight := 1 } ∧
      connStep (connStep disconnectedState .countdownTick) .resolveFailure =
        disconnectedState := by
  refine ⟨?_, ?_, rfl, rfl⟩
  · intro n k h
    rw [healthyTicks_lt k n h]
    exact ⟨rfl, rfl⟩
  · intro n m h
    obtain ⟨j, rfl⟩ : ∃ j, n = j + 1 := ⟨n - 1, by omega⟩
    have hone : healthyTicks (j + 1) (connectedState ((j + 1 : Nat) : Int)) =
        firedProbeState := by
      have hsplit : healthyTicks (j + 1) (connectedState ((j + 1 : Nat) : Int)) =
          healthyTicks 1 (healthyTicks j (connectedState ((j + 1 : Nat) : Int))) := by
        rw [← healthyTicks_add]
      rw [hsplit, healthyTicks_lt j (((j + 1 : Nat)) : Int) (by push_cast; omega)]
      have e : ((j + 1 : Nat) : Int) - (j : Nat) = 1 := by push_cast; ring
      rw [e]
      rfl
    rw [healthyTicks_add (j + 1) m, hone]
    exact healthyTicks_fired m

/-- Witness for `conn_reprobe_schedule` with the spec's 30-second payload:
after 29 ticks no probe has fired; after 30 exactly one has. -/
theorem conn_reprobe_schedule_witness :
    ((29 : Int) < 30 ∧ (healthyTicks 29 (connectedState 30)).inFlight = 0) ∧
      (0 < 30 ∧ healthyTicks (30 + 0) (connectedState ((30 : Nat) : Int)) =
        firedProbeState) := by
  refine ⟨⟨by norm_num, ?_⟩, ⟨by norm_num, ?_⟩⟩
  · exact (conn_reprobe_schedule.1 30 29 (by norm_num)).1
  · exact conn_reprobe_schedule.2.1 30 0 (by norm_num)

/-! ## Client Poller (`src/components/MessageItem.vue`, `pollScrapingStatus`)

`pollScrapingStatus` fetches `/api/scraper/status`.  On a parse/network
exception it schedules itself again after 5000 ms.  On a parsed response:
if `result.success` it stores `result.status` and, when
`status.is_running`, schedules itself after 2000 ms; when not running and
`channels_processed > 0` it schedules a single `fetchChannels` refresh
after 1000 ms and does not poll again; when not running with no channels
processed it schedules nothing.  When `result.success` is false the
function schedules nothing at all (there is no `else` branch). -/

/-- The scrape status payload carried by `/api/scraper/status` responses. -/
structure ScrapingStatus where
  is_running : Bool
  progress : String
  channels_processed : Nat
  total_channels : Option Nat
  deriving DecidableEq, Repr

/-- Outcome of one status request: a thrown fetch/parse error, or a parsed
response envelope with its `success` flag and status payload. -/
inductive PollResponse where
  | fail : PollResponse
  | ok : Bool → ScrapingStatus → PollResponse
  deriving DecidableEq, Repr

/-- What one run of `pollScrapingStatus` leaves behind on the event loop:
another poll after the given delay, a single data refresh after the given
delay (and no further poll), or nothing. -/
inductive PollAction where
  | repoll : Nat → PollAction
  | refresh : Nat → PollAction
  | stop : PollAction
  deriving DecidableEq, Repr

def PollAction.continuesPolling : PollAction → Bool
  | .repoll _ => true
  | .refresh _ => false
  | .stop => false

def pollStep : PollResponse → PollAction
  | .fail => .repoll 5000
  | .ok success st =>
    if success then
      if st.is_running then .repoll 2000
      else if 0 < st.channels_processed then .refresh 1000
      else .stop
    else .stop

/-- The poll loop over a stream of responses: it consumes responses one at
a time as long as each step schedules another poll, and records the final
action when it does not. -/
def pollRun : List PollResponse → List PollAction
  | [] => []
  | r :: rs =>
    match pollStep r with
    | .repoll d => .repoll d :: pollRun rs
    | a => [a]

/-- C5: while successful responses report `is_running`, the poller
re-polls after 2000 ms; a successful `is_running = false` response after
at least one processed channel schedules exactly one refresh after
1000 ms and ends the polling loop; a thrown status call re-polls after
5000 ms and the loop keeps going. -/
theorem pollScrapingStatus_schedule :
    (∀ (st : ScrapingStatus) (rest : List PollResponse), st.is_running = true →
        pollRun (.ok true st :: rest) = .repoll 2000 :: pollRun rest) ∧
      (∀ (st : ScrapingStatus) (rest : List PollResponse), st.is_running = false →
        0 < st.channels_processed →
        pollRun (.ok true st :: rest) = [.refresh 1000]) ∧
      (∀ rest : List PollResponse,
        pollRun (.fail :: rest) = .repoll 5000 :: pollRun rest) := by
  refine ⟨?_, ?_, ?_⟩
  · intro st rest h
    simp [pollRun, pollStep, h]
  · intro st rest h hc
    simp [pollRun, pollStep, h, hc]
  · intro rest
    simp [pollRun, pollStep]

/-- Witness for `pollScrapingStatus_schedule` at concrete responses. -/
theorem pollScrapingStatus_schedule_witness :
    pollRun [.ok true ⟨true, "scraping", 0, none⟩] = [.repoll 2000] ∧
      pollRun [.ok true ⟨false, "done", 3, none⟩] = [.refresh 1000] ∧
      pollRun [.fail] = [.repoll 5000] := by
  refine ⟨?_, ?_, ?_⟩
  · rw [pollScrapingStatus_schedule.1 ⟨true, "scraping", 0, none⟩ [] rfl]
    rfl
  · exact pollScrapingStatus_schedule.2.1 ⟨false, "done", 3, none⟩ [] rfl
      (by norm_num)
  · rw [pollScrapingStatus_schedule.2.2 []]
    rfl

/-- C6 counterexample: a well-parsed response whose envelope has
`success = false` — not a successful terminal `running = false` report;
the job may even still be running — makes the poller schedule nothing, so
polling does not continue (the subsequent response is never consumed). -/
theorem poll_stop_on_unsuccessful_cex :
    pollRun [.ok false ⟨true, "scraping", 0, none⟩, .fail] = [.stop] := rfl

/-- C6 (amended): the poller keeps polling exactly on thrown status calls
and on successful responses with `is_running = true`; it stops both on a
successful `is_running = false` report and on any well-parsed response
with `success = false`. -/
theorem poll_continues_iff (r : PollResponse) :
    (pollStep r).continuesPolling = true ↔
      (r = .fail ∨ ∃ st, r = .ok true st ∧ st.is_running = true) := by
  cases r with
  | fail => simp [pollStep, PollAction.continuesPolling]
  | ok success st =>
    cases success with
    | false => simp [pollStep, PollAction.continuesPolling]
    | true =>
      by_cases h : st.is_running = true
      · simp [pollStep, h, PollAction.continuesPolling]
      · by_cases hc : 0 < st.channels_processed <;>
          simp [pollStep, h, hc, PollAction.continuesPolling]

/-! ## Progress percentage (`src/components/MessageItem.vue`,
`progressPercentage`)

`progressPercentage` is a computed value over `scrapingStatus`: when
`total_channels` is missing or 0 (JavaScript falsiness) it is 0 with no
division performed; otherwise it is
`Math.round((channels_processed / total_channels) * 100)`. -/

/-- JavaScript `Math.round` on a (non-NaN) number: round half toward
positive infinity. -/
def jsRound (x : ℚ) : Int :=
  ⌊x + 1 / 2⌋

def progressPercentage (st : ScrapingStatus) : Int :=
  match st.total_channels with
  | none => 0
  | some tc =>
    if tc = 0 then 0
    else jsRound ((st.channels_processed : ℚ) / (tc : ℚ) * 100)

/-- C10: the progress computation is total: 0 whenever `total_channels`
is missing or zero, and otherwise exactly the JavaScript rounding of
`100 * channels_processed / total_channels`, which agrees with the closed
natural-division form `(200 * p + t) / (2 * t)`. -/
theorem progressPercentage_spec (st : ScrapingStatus) :
    ((st.total_channels = none ∨ st.total_channels = some 0) →
        progressPercentage st = 0) ∧
      (∀ tc : Nat, st.total_channels = some tc → tc ≠ 0 →
        progressPercentage st =
            jsRound (100 * (st.channels_processed : ℚ) / (tc : ℚ)) ∧
          progressPercentage st =
            ((200 * st.channels_processed + tc) / (2 * tc) : ℕ)) := by
  constructor
  · rintro (h | h) <;> simp [progressPercentage, h]
  · intro tc htc hne
    have hform : progressPercentage st =
        jsRound ((st.channels_processed : ℚ) / (tc : ℚ) * 100) := by
      simp [progressPercentage, htc, hne]
    have harg : (st.channels_processed : ℚ) / (tc : ℚ) * 100 + 1 / 2 =
        ((200 * st.channels_processed + tc : ℕ) : ℚ) / ((2 * tc : ℕ) : ℚ) := by
      have : ((tc : ℚ)) ≠ 0 := by exact_mod_cast hne
      field_simp
      ring
    constructor
    · rw [hform]
      unfold jsRound
      congr 1
      ring
    · rw [hform]
      unfold jsRound
      rw [harg, Rat.floor_natCast_div_natCast]
      push_cast
      rfl

/-- Witness for `progressPercentage_spec` at a concrete status. -/
theorem progressPercentage_spec_witness :
    progressPercentage ⟨true, "", 1, some 3⟩ = ((200 * 1 + 3) / (2 * 3) : ℕ) := by
  exact ((progressPercentage_spec ⟨true, "", 1, some 3⟩).2 3 rfl
    (by norm_num)).2

/-! ## Tag editing (`src/components/MessageItem.vue`, `handleEditTags` and
`removeTag`)

`handleEditTags` prompts for tags to add; when the entry trims to a
non-empty string it splits the entry and the message's current tag CSV on
commas, trims each piece, drops empty pieces, concatenates current then
new, de-duplicates via `[...new Set(...)]` (which keeps the first
occurrence of each element), and joins with `", "`.  `removeTag` filters
the parsed current tags down to those different from the removed tag and
joins the remainder (empty string when none remain).

JavaScript strings are modelled as lists of characters (`List Char`,
i.e. `String.toList` of a Lean string literal), with the string
operations the component uses — `split(',')`, `trim()`, `join(', ')` —
embedded explicitly. -/

/-- JavaScript `s.split(',')`: the comma-separated groups of `s` (the empty string
yields one empty group, like in JavaScript). -/
def splitOnComma : List Char → List (List Char)
  | [] => [[]]
  | c :: cs =>
    if c = ',' then [] :: splitOnComma cs
    else
      match splitOnComma cs with
      | [] => [[c]]
      | g :: gs => (c :: g) :: gs

/-- JavaScript `s.trim()`: strip leading and trailing whitespace. -/
def trimChars (s : List Char) : List Char :=
  ((s.dropWhile Char.isWhitespace).reverse.dropWhile Char.isWhitespace).reverse

/-- Parsing a tag CSV: `csv.split(',').map(t => t.trim()).filter(t => t)`. -/
def parseTags (s : List Char) : List (List Char) :=
  ((splitOnComma s).map trimChars).filter (fun t => t ≠ [])

def dedupGo (seen : List (List Char)) : List (List Char) → List (List Char)
  | [] => []
  | t :: ts => if t ∈ seen then dedupGo seen ts else t :: dedupGo (t :: seen) ts

/-- JavaScript `[...new Set(arr)]`: de-duplicate keeping first occurrences in order. -/
def jsSetDedup (l : List (List Char)) : List (List Char) :=
  dedupGo [] l

/-- The CSV `handleEditTags` sends to the server (`none` when the entry
trims to the empty string and no update is emitted). -/
def handleEditTags (currentTags entry : List Char) : Option (List Char) :=
  if trimChars entry = [] then none
  else some (List.intercalate (", ".toList)
    (jsSetDedup (parseTags currentTags ++ parseTags entry)))

/-- The CSV `removeTag` sends to the server. -/
def removeTag (currentTags tagToRemove : List Char) : List Char :=
  if 0 < ((parseTags currentTags).filter (fun t => t ≠ tagToRemove)).length then
    List.intercalate (", ".toList)
      ((parseTags currentTags).filter (fun t => t ≠ tagToRemove))
  else []

theorem mem_dedupGo (l : List (List Char)) :
    ∀ (seen : List (List Char)) (t : List Char),
      t ∈ dedupGo seen l ↔ t ∈ l ∧ t ∉ seen := by
  induction l with
  | nil => intro seen t; simp [dedupGo]
  | cons a l ih =>
    intro seen t
    by_cases ha : a ∈ seen
    · rw [dedupGo, if_pos ha, ih]
      simp only [List.mem_cons]
      by_cases hta : t = a
      · subst hta; tauto
      · tauto
    · rw [dedupGo, if_neg ha]
      simp only [List.mem_cons, ih]
      by_cases hta : t = a
      · subst hta; tauto
      · tauto

theorem nodup_dedupGo (l : List (List Char)) :
    ∀ seen : List (List Char), (dedupGo seen l).Nodup := by
  induction l with
  | nil => intro seen; simp [dedupGo]
  | cons a l ih =>
    intro seen
    by_cases ha : a ∈ seen
    · rw [dedupGo, if_pos ha]
      exact ih seen
    · rw [dedupGo, if_neg ha]
      refine List.Nodup.cons ?_ (ih (a :: seen))
      intro hmem
      exact ((mem_dedupGo l (a :: seen) a).mp hmem).2 (List.mem_cons_self a seen)

theorem sublist_dedupGo (l : List (List Char)) :
    ∀ seen : List (List Char), (dedupGo seen l).Sublist l := by
  induction l with
  | nil => intro seen; simp [dedupGo]
  | cons a l ih =>
    intro seen
    by_cases ha : a ∈ seen
    · rw [dedupGo, if_pos ha]
      exact (ih seen).cons a
    · rw [dedupGo, if_neg ha]
      exact (ih (a :: seen)).cons₂ a

/-- C8: adding entered tags sends the union of the parsed current tags and
the parsed entry — the combined list has exactly the members of either
side, no duplicate, in the first-occurrence order of current-then-entered
(a sublist of the concatenation); `"a, a, b"` over no current tags yields
exactly `a` then `b`; and removing a tag sends the parsed current tags
minus every occurrence of that tag. -/
theorem tag_editing_spec :
    (∀ currentTags entry : List Char, trimChars entry ≠ [] →
        handleEditTags currentTags entry = some (List.intercalate (", ".toList)
          (jsSetDedup (parseTags currentTags ++ parseTags entry)))) ∧
      (∀ (currentTags entry t : List Char),
        t ∈ jsSetDedup (parseTags currentTags ++ parseTags entry) ↔
          t ∈ parseTags currentTags ∨ t ∈ parseTags entry) ∧
      (∀ currentTags entry : List Char,
        (jsSetDedup (parseTags currentTags ++ parseTags entry)).Nodup ∧
          (jsSetDedup (parseTags currentTags ++ parseTags entry)).Sublist
            (parseTags currentTags ++ parseTags entry)) ∧
      handleEditTags [] ("a, a, b".toList) = some ("a, b".toList) ∧
      jsSetDedup (parseTags [] ++ parseTags ("a, a, b".toList)) =
        ["a".toList, "b".toList] ∧
      (∀ currentTags tagToRemove : List Char,
        removeTag currentTags tagToRemove = List.intercalate (", ".toList)
          ((parseTags currentTags).filter (fun t => t ≠ tagToRemove)) ∧
        ∀ t, (t ∈ (parseTags currentTags).filter (fun u => u ≠ tagToRemove) ↔
          t ∈ parseTags currentTags ∧ t ≠ tagToRemove)) := by
  refine ⟨?_, ?_, ?_, by decide, by decide, ?_⟩
  · intro currentTags entry h
    rw [handleEditTags, if_neg h]
  · intro currentTags entry t
    rw [jsSetDedup, mem_dedupGo]
    simp
  · intro currentTags entry
    exact ⟨nodup_dedupGo _ [], sublist_dedupGo _ []⟩
  · intro currentTags tagToRemove
    constructor
    · rw [removeTag]
      by_cases h : 0 < ((parseTags currentTags).filter
          (fun t => t ≠ tagToRemove)).length
      · rw [if_pos h]
      · rw [if_neg h]
        have : (parseTags currentTags).filter (fun t => t ≠ tagToRemove) = [] :=
          List.eq_nil_of_length_eq_zero (by omega)
        rw [this]
        rfl
    · intro t
      simp [List.mem_filter]

/-- Witness for `tag_editing_spec` at a concrete current CSV and entry. -/
theorem tag_editing_spec_witness :
    handleEditTags ("b, c".toList) ("a, b".toList) =
      some (List.intercalate (", ".toList)
        (jsSetDedup (parseTags ("b, c".toList) ++ parseTags ("a, b".toList)))) := by
  exact tag_editing_spec.1 ("b, c".toList) ("a, b".toList) (by decide)

/-! ## Mark-as-read (`POST /api/messages/<id>/read`)

The server side of the flag protocol lives in `server/api_server.py`,
which is not among the sources (only its documentation and its client
callers in `DashboardView.vue` and the kanban view are). -/

/-- A stored message restricted to the fields the read flag touches. -/
structure MsgRec where
  id : Nat
  read : Bool
  deriving DecidableEq, Repr

/-- Modelled from the spec: the backend mark-as-read handler
(`server/api_server.py` is absent from the sources).  Per §4.6 of the
design document it sets `read = true` on the message with the given id
and succeeds; an unknown id is a not-found failure with no mutation. -/
def markRead (store : List MsgRec) (i : Nat) : List MsgRec × Bool :=
  if store.any (fun m => m.id == i) then
    (store.map (fun m => if m.id = i then { m with read := true } else m), true)
  else (store, false)

theorem markRead_map_id (store : List MsgRec) (i : Nat) :
    (store.map (fun m => if m.id = i then { m with read := true } else m)).any
        (fun m => m.id == i) = store.any (fun m => m.id == i) := by
  rw [List.any_map]
  congr 1
  funext m
  by_cases h : m.id = i <;> simp [h]

/-- C9: `markRead` is idempotent — when the id exists, a second call
returns the identical store and success — it sets `read = true` on the
matching message, and it never clears a read flag: position by position,
ids are preserved and every message read before the call is read after
it (no unmark path). -/
theorem markRead_idempotent :
    (∀ (store : List MsgRec) (i : Nat),
        store.any (fun m => m.id == i) = true →
        markRead (markRead store i).1 i = markRead store i) ∧
      (∀ (store : List MsgRec) (i : Nat),
        store.any (fun m => m.id == i) = true →
        ∀ m ∈ (markRead store i).1, m.id = i → m.read = true) ∧
      (∀ (store : List MsgRec) (i : Nat),
        List.Forall₂ (fun m m2 => (m.read = true → m2.read = true) ∧ m2.id = m.id)
          store (markRead store i).1) := by
  refine ⟨?_, ?_, ?_⟩
  · intro store i h
    have hmap : (store.map
        (fun m => if m.id = i then { m with read := true } else m)).any
        (fun m => m.id == i) = true := by
      rw [markRead_map_id]
      exact h
    have h1 : markRead store i =
        (store.map (fun m => if m.id = i then { m with read := true } else m),
          true) := by
      rw [markRead, if_pos h]
    rw [h1, markRead, if_pos hmap, List.map_map]
    refine Prod.ext ?_ rfl
    apply List.map_congr_left
    intro m _
    simp only [Function.comp_apply]
    by_cases hm : m.id = i
    · simp [hm]
    · simp [hm]
  · intro store i h m hm hi
    rw [markRead, if_pos h] at hm
    rcases List.mem_map.mp hm with ⟨m0, _, rfl⟩
    by_cases hm0 : m0.id = i
    · simp [hm0]
    · exfalso
      rw [if_neg hm0] at hi
      exact hm0 hi
  · intro store i
    by_cases h : store.any (fun m => m.id == i) = true
    · have hms : (markRead store i).1 =
          store.map (fun m => if m.id = i then { m with read := true } else m) := by
        rw [markRead, if_pos h]
      rw [hms, List.forall₂_map_right_iff, List.forall₂_same]
      intro m _
      by_cases hm : m.id = i
      · simp [hm]
      · simp [hm]
    · have hms : (markRead store i).1 = store := by
        rw [markRead, if_neg h]
      rw [hms, List.forall₂_same]
      exact fun m _ => ⟨fun hr => hr, rfl⟩

/-- Witness for `markRead_idempotent` at a concrete two-message store. -/
theorem markRead_idempotent_witness :
    ([MsgRec.mk 1 false, MsgRec.mk 2 true].any (fun m => m.id == 1) = true) ∧
      markRead (markRead [MsgRec.mk 1 false, MsgRec.mk 2 true] 1).1 1 =
        markRead [MsgRec.mk 1 false, MsgRec.mk 2 true] 1 := by
  exact ⟨by decide,
    markRead_idempotent.1 [MsgRec.mk 1 false, MsgRec.mk 2 true] 1 (by decide)⟩

/-! ## Scrape Job Coordinator (`POST /api/scraper/start`)

The coordinator lives in `server/telegram_scraper_api.py`, which is not
among the sources (only its API documentation and its client callers
are). -/

/-- The process-wide scrape job record of §3 of the design document. -/
structure ScrapeJob where
  running : Bool
  progressText : String
  channelsProcessed : Nat
  channelsTotal : Nat
  messagesAdded : Nat
  deriving DecidableEq, Repr

/-- One start request; defaults are `daysBack = 3`, `limit = 1000`. -/
structure ScrapeRequest where
  daysBack : Nat
  limit : Nat
  deriving DecidableEq, Repr

structure StartResult where
  accepted : Bool
  reason : Option String
  deriving DecidableEq, Repr

/-- Modelled from the spec: the coordinator's `start` admission
(`server/telegram_scraper_api.py` is absent from the sources).  Per §4.1
of the design document: if a job is running, reject with reason
"already running" and no side effect; otherwise — atomically with the
admission check — flip `running` to true, reset the progress counters and
launch the external ingestion routine with the request's parameters. -/
def startScrapeJob (job : ScrapeJob) (req : ScrapeRequest) :
    StartResult × ScrapeJob :=
  if job.running then
    ({ accepted := false, reason := some "already running" }, job)
  else
    ({ accepted := true, reason := none },
      { running := true
        progressText := ""
        channelsProcessed := 0
        channelsTotal := 0
        messagesAdded := 0 })

/-- A sequence of `start` calls: the spec makes the admission check plus
flip one atomic step, so concurrent calls linearize into a sequence. -/
def startAll (job : ScrapeJob) : List ScrapeRequest → List StartResult × ScrapeJob
  | [] => ([], job)
  | r :: rs =>
    ((startScrapeJob job r).1 :: (startAll (startScrapeJob job r).2 rs).1,
      (startAll (startScrapeJob job r).2 rs).2)

/-- C1: across any linearized sequence of `start` calls, at most one is
accepted while a prior job is still running — none at all when a job is
already running at the outset, at most one otherwise — and every call
hitting a running job is rejected with reason "already running" and
leaves the job state untouched. -/
theorem start_single_flight :
    (∀ (job : ScrapeJob) (reqs : List ScrapeRequest),
        (startAll job reqs).1.countP (fun r => r.accepted) ≤
          if job.running then 0 else 1) ∧
      (∀ (job : ScrapeJob) (req : ScrapeRequest), job.running = true →
        startScrapeJob job req =
          ({ accepted := false, reason := some "already running" }, job)) := by
  constructor
  · intro job reqs
    induction reqs generalizing job with
    | nil => simp [startAll]
    | cons r rs ih =>
      by_cases h : job.running
      · have hstep : startScrapeJob job r =
            ({ accepted := false, reason := some "already running" }, job) := by
          rw [startScrapeJob, if_pos h]
        have hrest := ih job
        rw [if_pos h] at hrest ⊢
        simp only [startAll, hstep, List.countP_cons]
        simpa using hrest
      · have hstep : startScrapeJob job r =
            (⟨true, none⟩, ⟨true, "", 0, 0, 0⟩) := by
          rw [startScrapeJob, if_neg h]
        have hrest := ih ⟨true, "", 0, 0, 0⟩
        rw [if_pos rfl] at hrest
        rw [if_neg h]
        simp only [startAll, hstep, List.countP_cons]
        simp only [Nat.le_zero] at hrest
        simp [hrest]
  · intro job req h
    rw [startScrapeJob, if_pos h]

/-- Witness for `start_single_flight`: a `start` against a running job is
rejected without side effects. -/
theorem start_single_flight_witness :
    startScrapeJob ⟨true, "scraping", 1, 2, 3⟩ ⟨3, 1000⟩ =
      ({ accepted := false, reason := some "already running" },
        ⟨true, "scraping", 1, 2, 3⟩) := by
  exact start_single_flight.2 ⟨true, "scraping", 1, 2, 3⟩ ⟨3, 1000⟩ rfl

end TeliBelly
